import Mathlib

/-!
Verification of the `replete`/`nt_utils` repository core against its
specification.

Part 1 embeds `src/nt_utils/consistent_hash.py` (`consistent_hash_raw`,
`consistent_hash`).  Part 2 embeds `src/replete/flock.py` (`FileLock`).

Modelling conventions for `consistent_hash`:

* Python runtime values are modelled by the inductive `Value`, covering the
  value kinds the specification's claims mention: `bytes`, `str`, `int`,
  `bool`, `list`, `tuple`, string-keyed `dict`, and user-defined objects
  (`vobj`), the latter carrying an optional `_consistent_hash` result, an
  optional `pickle.dumps` result (`none` models `pickle.dumps` raising), and
  their `repr` string.  `float` / `datetime` values are not populated, but the
  source's `PRIMITIVE_TYPE_NAMES` constant is kept in full.

* The xxh128 hasher is modelled by the exact sequence of `hasher.update(...)`
  calls it receives: a `HashStream` is a list of `Chunk`s, one per `update` call.
  `Chunk.raw bs` is an update with literal bytes `bs`; `Chunk.dig s` is an
  update with the 16-byte digest of a nested hasher that itself received the
  stream `s` (source lines 49 and 51, `....digest()`).  Since xxh128 is a
  fixed pure function of the bytes it is fed, equal `HashStream`s yield equal
  digests, and distinct `HashStream`s yield distinct digests exactly when xxh128
  does not collide — which is the "probabilistically, not absolutely" caveat
  the specification itself attaches to every inequality statement.

* Python `repr` is modelled by `pyRepr`.  For strings the model covers
  CPython's behaviour on strings containing no quote, backslash or control
  characters (CPython would escape those); all concrete inputs used below are
  of that restricted form.

* All functions are total: the source's primary path raises no exception, and
  the `pickle.dumps` try/except is modelled by `vobj`'s `Option` field.
-/

/-- Bytes are modelled as `Nat` values (< 256 for meaningful inputs). -/
abbrev Byte := Nat

/-- A Python runtime value, restricted to the kinds of values the claims
about `consistent_hash` mention. -/
inductive Value where
  | vbytes (b : List Byte)
  | vstr (s : String)
  | vint (i : Int)
  | vbool (b : Bool)
  | vlist (elems : List Value)
  | vtuple (elems : List Value)
  | vdict (entries : List (String × Value))
  | vobj (cname : String) (objId : Nat) (selfHash : Option Nat)
      (pickled : Option (List Byte)) (reprStr : String)

/-- `param.__class__.__name__` (source line 38). -/
def typeName : Value → String
  | .vbytes _ => "bytes"
  | .vstr _ => "str"
  | .vint _ => "int"
  | .vbool _ => "bool"
  | .vlist _ => "list"
  | .vtuple _ => "tuple"
  | .vdict _ => "dict"
  | .vobj cname _ _ _ _ => cname

/-- The source's `PRIMITIVE_TYPE_NAMES` frozenset (source lines 11-25):
the `__name__`s of `bytes, str, int, bool, float, datetime.datetime`. -/
def PRIMITIVE_TYPE_NAMES : List String :=
  ["bytes", "str", "int", "bool", "float", "datetime"]

/-- Python `repr` restricted to the modelled values.  Strings are assumed to
contain no quote/backslash/control characters (CPython chooses `'...'` and
escapes nothing for those).  The container cases are never consulted by the
dispatch below (their type names are not primitive), and `repr` of `bytes` is
never consulted either (the `bytes` branch uses the raw bytes). -/
def pyRepr : Value → String
  | .vstr s => "'" ++ s ++ "'"
  | .vint i => toString i
  | .vbool b => if b then "True" else "False"
  | .vobj _ _ _ _ reprStr => reprStr
  | .vbytes _ => ""
  | .vlist _ => ""
  | .vtuple _ => ""
  | .vdict _ => ""

/-- UTF-8 encoding of one character (standard 1- to 4-byte encoding),
modelling Python's `str.encode()`. -/
def utf8Bytes (c : Char) : List Byte :=
  let n := c.toNat
  if n < 0x80 then [n]
  else if n < 0x800 then [0xC0 + n / 64, 0x80 + n % 64]
  else if n < 0x10000 then
    [0xE0 + n / 4096, 0x80 + n / 64 % 64, 0x80 + n % 64]
  else
    [0xF0 + n / 262144, 0x80 + n / 4096 % 64, 0x80 + n / 64 % 64, 0x80 + n % 64]

/-- Python `s.encode()` (UTF-8 bytes of a string). -/
def encodeStr (s : String) : List Byte := s.data.flatMap utf8Bytes

/-- Python `rec_int.to_bytes(16, "little")` (source line 46): the 16-byte
little-endian encoding of a 128-bit integer (`to_bytes` would raise
`OverflowError` for `n ≥ 2^128`; the self-hash contract is a 128-bit value
and all inputs below satisfy it). -/
def toBytes16LE (n : Nat) : List Byte :=
  (List.range 16).map fun i => n / 256 ^ i % 256

/-- One `hasher.update(...)` call.  `raw bs` feeds the literal bytes `bs`;
`dig s` feeds the 16-byte xxh128 digest of a nested hasher that received the
stream `s`. -/
inductive Chunk where
  | raw (bytes : List Byte)
  | dig (inner : List Chunk)

/-- The full sequence of `update` calls an `xxhash.xxh128()` accumulator
receives; the returned digest is the fixed function xxh128 of (the
concatenation of) this stream. -/
abbrev HashStream := List Chunk

/-- `getattr(param, "_consistent_hash", None)` (source line 44): only
user-defined objects can carry the capability. -/
def selfHashOf : Value → Option Nat
  | .vobj _ _ selfHash _ _ => selfHash
  | _ => none

/-- Lexicographic code-point comparison of character lists: exactly Python's
`str` ordering, used by `sorted` on the keys. -/
def charsLE : List Char → List Char → Bool
  | [], _ => true
  | _ :: _, [] => false
  | a :: as, b :: bs =>
    if a.toNat < b.toNat then true
    else if b.toNat < a.toNat then false
    else charsLE as bs

/-- Python's `str <= str` (lexicographic by code point). -/
def pyStrLE (a b : String) : Bool := charsLE a.data b.data

/-- Key ordering used by `sorted(kwargs.items())` (source line 35): Python
sorts the `(key, value)` tuples lexicographically; since a `dict`'s keys are
unique, the comparison is decided by the keys alone. -/
def kwLE (a b : String × Value) : Prop := pyStrLE a.1 b.1 = true

instance : DecidableRel kwLE := fun a b => inferInstanceAs (Decidable (_ = true))

/-- The same key ordering on key/chunk pairs. -/
def kcLE (a b : String × Chunk) : Prop := pyStrLE a.1 b.1 = true

instance : DecidableRel kcLE := fun a b => inferInstanceAs (Decidable (_ = true))

/-- `sorted(kwargs.items())` (source line 35). -/
def sortItems (l : List (String × Value)) : List (String × Value) :=
  List.insertionSort kwLE l

/-- Sorting key/chunk pairs by key; used to express the `dict` branch
(source lines 47-49) in a structurally recursive way. -/
def sortPairs (l : List (String × Chunk)) : List (String × Chunk) :=
  List.insertionSort kcLE l

/-- The byte contribution of one `(key, value)` item of a mapping, given the
chunk already computed for the value: the item is the tuple `(key, value)`,
hashed by the sequence branch as `consistent_hash_raw((key, value))`, whose
stream is the `str` chunk of the key followed by the value's chunk. -/
def itemChunk (p : String × Chunk) : Chunk :=
  Chunk.dig [Chunk.raw (encodeStr (pyRepr (Value.vstr p.1))), p.2]

mutual

/-- The byte contribution `param_bytes` of one parameter (source lines
37-60), as a `Chunk`.  The dispatch follows the source order: primitive type
name first (lines 39-43), then the `_consistent_hash` capability (lines
44-46), then `Mapping` (lines 47-49), then `list`/`tuple` (lines 50-51), then
the generic pickle/repr fallback (lines 52-60).  Nested recursive calls use
the source's default flags (`type_name_dependence=False, try_pickle=True`),
because lines 49 and 51 call `consistent_hash_raw` without forwarding them;
`tryPickle` therefore only affects this parameter's own generic branch.
The dispatch is partially evaluated per constructor:

* `vbytes`: type name `"bytes"` is primitive, `param_bytes = param`.
* `vstr`/`vint`/`vbool`: primitive, `param_bytes = repr(param).encode()`.
* `vlist`/`vtuple`: not primitive, no capability, sequence branch.
* `vdict`: not primitive, no capability, mapping branch; since keys are
  already strings, `{str(key): value}` is the entry list itself.  Sorting by
  key commutes with replacing each value by its chunk (`map_insertionSort`),
  which is proved below as `chunkOf_vdict`.
* `vobj cname ...`: if `cname` is a primitive name the source's name-based
  check takes the primitive branch and uses `repr(param)` (for `cname =
  "bytes"` the source would feed a non-bytes object to `hasher.update`, a
  `TypeError`; no claim touches that case and it is modelled as empty bytes);
  otherwise the capability, then the generic branch, are consulted. -/
def chunkOf (tryPickle : Bool) : Value → Chunk
  | .vbytes b => Chunk.raw b
  | .vstr s => Chunk.raw (encodeStr (pyRepr (Value.vstr s)))
  | .vint i => Chunk.raw (encodeStr (pyRepr (Value.vint i)))
  | .vbool b => Chunk.raw (encodeStr (pyRepr (Value.vbool b)))
  | .vlist elems => Chunk.dig (argsStream elems)
  | .vtuple elems => Chunk.dig (argsStream elems)
  | .vdict entries => Chunk.dig ((sortPairs (pairChunks entries)).map itemChunk)
  | .vobj cname objId selfHash pickled reprStr =>
    if cname ∈ PRIMITIVE_TYPE_NAMES then
      if cname = "bytes" then Chunk.raw []
      else Chunk.raw (encodeStr (pyRepr (Value.vobj cname objId selfHash pickled reprStr)))
    else
      match selfHash with
      | some n => Chunk.raw (toBytes16LE n)
      | none =>
        match (if tryPickle then pickled else none) with
        | some bs => Chunk.raw bs
        | none => Chunk.raw (encodeStr reprStr)

/-- The stream of a nested positional-only call `consistent_hash_raw(param)`
(source line 51): one chunk per element, default flags. -/
def argsStream : List Value → HashStream
  | [] => []
  | v :: vs => chunkOf true v :: argsStream vs

/-- The key/chunk pairs of a mapping's entries, values hashed with default
flags. -/
def pairChunks : List (String × Value) → List (String × Chunk)
  | [] => []
  | (k, v) :: es => (k, chunkOf true v) :: pairChunks es

end

/-- Embedding of `consistent_hash_raw` (source lines 28-66): build the
effective parameter list — positional values in order, then the `(key,
value)` items of the keyword mapping sorted by key, each as a tuple value
(`params = [*args, *sorted(kwargs.items())] if kwargs else args`, line 35) —
and feed each parameter's contribution to the hasher in order, preceded, when
`type_name_dependence` is set, by `b"\x00"`, the type name's bytes and
`b"\x00"` (lines 61-65).  The result is the hasher's update stream; the
source returns the xxh128 accumulator over exactly this stream. -/
def consistent_hash_raw (args : List Value) (kwargs : List (String × Value))
    (type_name_dependence : Bool := false) (try_pickle : Bool := true) : HashStream :=
  let params :=
    if kwargs.isEmpty then args
    else args ++ (sortItems kwargs).map fun kv => Value.vtuple [Value.vstr kv.1, kv.2]
  params.flatMap fun param =>
    (if type_name_dependence then
      [Chunk.raw [0], Chunk.raw (encodeStr (typeName param)), Chunk.raw [0]]
    else []) ++ [chunkOf try_pickle param]

/-- Embedding of `consistent_hash(*args, **kwargs)` (source lines 69-70): the
raw call with all-default flags.  The source applies `.intdigest()`, a fixed
bijective reading of the 128-bit digest, so digest (in)equality is stream
(in)equality up to xxh128 collisions. -/
def consistent_hash (args : List Value) (kwargs : List (String × Value)) : HashStream :=
  consistent_hash_raw args kwargs

-- Basic tie-in lemmas showing the structural core above is the source's
-- recursion through the main entry point.

theorem argsStream_eq_map (l : List Value) : argsStream l = l.map (chunkOf true) := by
  induction l with
  | nil => rfl
  | cons v vs ih => simp [argsStream, ih]

theorem pairChunks_eq_map (l : List (String × Value)) :
    pairChunks l = l.map fun kv => (kv.1, chunkOf true kv.2) := by
  induction l with
  | nil => rfl
  | cons kv es ih => cases kv; simp [pairChunks, ih]

theorem flatMap_single {α β : Type} (l : List α) (f : α → β) :
    (l.flatMap fun a => [f a]) = l.map f := by
  induction l with
  | nil => rfl
  | cons a l ih => simp [ih]

/-- Source line 51: the chunk of a list parameter is the digest of
`consistent_hash_raw(param)` with default flags. -/
theorem chunkOf_vlist (tp : Bool) (elems : List Value) :
    chunkOf tp (Value.vlist elems) = Chunk.dig (consistent_hash_raw elems []) := by
  simp [chunkOf, consistent_hash_raw, argsStream_eq_map, flatMap_single]

/-- Source line 51 for tuples. -/
theorem chunkOf_vtuple (tp : Bool) (elems : List Value) :
    chunkOf tp (Value.vtuple elems) = Chunk.dig (consistent_hash_raw elems []) := by
  simp [chunkOf, consistent_hash_raw, argsStream_eq_map, flatMap_single]

/-- Sorting entries by key commutes with replacing each value by its chunk:
the relations `kwLE` and `kcLE` compare keys only, which the replacement
preserves. -/
theorem sortPairs_pairChunks (entries : List (String × Value)) :
    sortPairs (pairChunks entries)
      = (sortItems entries).map fun kv => (kv.1, chunkOf true kv.2) := by
  rw [pairChunks_eq_map, sortItems, sortPairs,
    ← List.map_insertionSort kwLE kcLE (fun kv => (kv.1, chunkOf true kv.2)) entries]
  intro a _ b _
  exact Iff.rfl

/-- Source lines 47-49: the chunk of a mapping parameter is the digest of
`consistent_hash_raw((), param_items)` with default flags (keys are already
strings, so `{str(key): value}` is the entry list itself). -/
theorem chunkOf_vdict (tp : Bool) (entries : List (String × Value)) :
    chunkOf tp (Value.vdict entries) = Chunk.dig (consistent_hash_raw [] entries) := by
  by_cases h : entries.isEmpty
  · have : entries = [] := List.isEmpty_iff.mp h
    subst this
    simp [chunkOf, consistent_hash_raw, sortPairs, pairChunks, sortItems,
      List.insertionSort]
  · simp only [chunkOf, consistent_hash_raw, h, if_neg, List.nil_append]
    rw [sortPairs_pairChunks]
    simp only [Bool.false_eq_true, if_false, List.nil_append]
    rw [flatMap_single, List.map_map, List.map_map]
    refine congrArg Chunk.dig (List.map_congr_left fun kv _ => ?_)
    simp [itemChunk, chunkOf, argsStream]

-- Order properties of the Python string comparison used by `sorted`.

theorem charsLE_total : ∀ as bs : List Char, charsLE as bs = true ∨ charsLE bs as = true
  | [], _ => Or.inl rfl
  | _ :: _, [] => Or.inr rfl
  | a :: as, b :: bs => by
    simp only [charsLE]
    rcases Nat.lt_trichotomy a.toNat b.toNat with h | h | h
    · left
      simp [h]
    · have h1 : ¬a.toNat < b.toNat := by omega
      have h2 : ¬b.toNat < a.toNat := by omega
      simp only [h1, h2, if_false]
      exact charsLE_total as bs
    · right
      simp [h]

theorem charsLE_trans :
    ∀ as bs cs : List Char, charsLE as bs = true → charsLE bs cs = true →
      charsLE as cs = true
  | [], _, _, _, _ => rfl
  | _ :: _, [], _, h, _ => by simp [charsLE] at h
  | _ :: _, _ :: _, [], _, h => by simp [charsLE] at h
  | a :: as, b :: bs, c :: cs, h1, h2 => by
    simp only [charsLE] at h1 h2 ⊢
    rcases Nat.lt_trichotomy a.toNat b.toNat with hab | hab | hab
    · rcases Nat.lt_trichotomy b.toNat c.toNat with hbc | hbc | hbc
      · simp [show a.toNat < c.toNat by omega]
      · simp [show a.toNat < c.toNat by omega]
      · rw [if_neg (by omega), if_pos hbc] at h2
        exact absurd h2 (by simp)
    · rw [if_neg (by omega), if_neg (by omega)] at h1
      rcases Nat.lt_trichotomy b.toNat c.toNat with hbc | hbc | hbc
      · simp [show a.toNat < c.toNat by omega]
      · rw [if_neg (by omega), if_neg (by omega)] at h2
        rw [if_neg (by omega), if_neg (by omega)]
        exact charsLE_trans as bs cs h1 h2
      · rw [if_neg (by omega), if_pos hbc] at h2
        exact absurd h2 (by simp)
    · rw [if_neg (by omega), if_pos hab] at h1
      exact absurd h1 (by simp)

theorem charsLE_antisymm :
    ∀ as bs : List Char, charsLE as bs = true → charsLE bs as = true → as = bs
  | [], [], _, _ => rfl
  | [], _ :: _, _, h2 => by simp [charsLE] at h2
  | _ :: _, [], h1, _ => by simp [charsLE] at h1
  | a :: as, b :: bs, h1, h2 => by
    simp only [charsLE] at h1 h2
    rcases Nat.lt_trichotomy a.toNat b.toNat with hab | hab | hab
    · rw [if_neg (by omega), if_pos hab] at h2
      exact absurd h2 (by simp)
    · rw [if_neg (by omega), if_neg (by omega)] at h1
      rw [if_neg (by omega), if_neg (by omega)] at h2
      have hc : a = b := by
        have := congrArg Char.ofNat hab
        rwa [Char.ofNat_toNat, Char.ofNat_toNat] at this
      rw [hc, charsLE_antisymm as bs h1 h2]
    · rw [if_neg (by omega), if_pos hab] at h1
      exact absurd h1 (by simp)

theorem pyStrLE_antisymm (a b : String) (h1 : pyStrLE a b = true)
    (h2 : pyStrLE b a = true) : a = b := by
  cases a with
  | mk da => cases b with
    | mk db => exact congrArg String.mk (charsLE_antisymm da db h1 h2)

instance : IsTotal (String × Value) kwLE :=
  ⟨fun a b => charsLE_total a.1.data b.1.data⟩

instance : IsTrans (String × Value) kwLE :=
  ⟨fun a b c => charsLE_trans a.1.data b.1.data c.1.data⟩

/-- The strict-key ordering: `kwLE` together with distinct keys.  On lists
whose keys are pairwise distinct (as a Python `dict`'s always are), being
sorted by `kwLE` is the same as being sorted by `kwLT`, and `kwLT` is
antisymmetric, which pins the sorted list down uniquely. -/
def kwLT (a b : String × Value) : Prop := kwLE a b ∧ a.1 ≠ b.1

instance : IsAntisymm (String × Value) kwLT :=
  ⟨fun a b h1 h2 => absurd (pyStrLE_antisymm a.1 b.1 h1.1 h2.1) h1.2⟩

theorem sortItems_perm (l : List (String × Value)) : (sortItems l).Perm l :=
  List.perm_insertionSort kwLE l

theorem sortItems_sorted (l : List (String × Value)) :
    List.Sorted kwLE (sortItems l) :=
  List.sorted_insertionSort kwLE l

/-- Two listings of the same string-keyed mapping (same key/value pairs in
any order, keys pairwise distinct) sort to the same canonical item list. -/
theorem sortItems_eq_of_perm {l₁ l₂ : List (String × Value)} (hp : l₁.Perm l₂)
    (hnd : (l₁.map Prod.fst).Nodup) : sortItems l₁ = sortItems l₂ := by
  have key : ∀ l : List (String × Value), (l.map Prod.fst).Nodup →
      List.Sorted kwLT (sortItems l) := by
    intro l hl
    have hs : List.Pairwise kwLE (sortItems l) := sortItems_sorted l
    have hnd' : ((sortItems l).map Prod.fst).Nodup :=
      ((sortItems_perm l).map Prod.fst).nodup_iff.mpr hl
    have hne : List.Pairwise (fun a b : String × Value => a.1 ≠ b.1) (sortItems l) :=
      (List.pairwise_map).mp hnd'
    exact hs.and hne
  have hnd₂ : (l₂.map Prod.fst).Nodup := (hp.map Prod.fst).nodup_iff.mp hnd
  exact List.eq_of_perm_of_sorted (r := kwLT)
    ((sortItems_perm l₁).trans (hp.trans (sortItems_perm l₂).symm))
    (key l₁ hnd) (key l₂ hnd₂)

/-- C1.  For every sequence of positional values and every string-keyed
mapping of named values, the digest returned by `consistent_hash` is
independent of the insertion order of the named values: the effective
parameter sequence is the positional values in given order followed by the
`(key, value)` pairs sorted by key, so two calls with the same positional
sequence and keyword listings that are permutations of each other (with the
pairwise-distinct keys a Python `dict` guarantees) produce the same update
stream and hence the same digest. -/
theorem consistent_hash_kwargs_order_independent
    (args : List Value) (kw₁ kw₂ : List (String × Value))
    (hperm : kw₁.Perm kw₂) (hnd : (kw₁.map Prod.fst).Nodup) :
    consistent_hash args kw₁ = consistent_hash args kw₂ := by
  have hempty : kw₁.isEmpty = kw₂.isEmpty := by
    cases kw₁ <;> cases kw₂ <;> simp_all [hperm.length_eq]
  unfold consistent_hash consistent_hash_raw
  rw [hempty, sortItems_eq_of_perm hperm hnd]

/-- Witness for C1: `{"foo": 1, "bar": 2}` and `{"bar": 2, "foo": 1}` hash
identically. -/
theorem consistent_hash_kwargs_order_independent_witness :
    [("foo", Value.vint 1), ("bar", Value.vint 2)].Perm
        [("bar", Value.vint 2), ("foo", Value.vint 1)]
    ∧ ([("foo", Value.vint 1), ("bar", Value.vint 2)].map
        (Prod.fst (α := String) (β := Value))).Nodup
    ∧ consistent_hash [] [("foo", Value.vint 1), ("bar", Value.vint 2)]
        = consistent_hash [] [("bar", Value.vint 2), ("foo", Value.vint 1)] :=
  have hp : [("foo", Value.vint 1), ("bar", Value.vint 2)].Perm
      [("bar", Value.vint 2), ("foo", Value.vint 1)] :=
    List.Perm.swap _ _ _
  ⟨hp, by decide,
    consistent_hash_kwargs_order_independent [] _ _ hp (by decide)⟩

-- Decidable equality of chunks and streams (needed to decide the concrete
-- fixture inequalities below).

mutual

def chunkDecEq : (a b : Chunk) → Decidable (a = b)
  | .raw x, .raw y =>
    if h : x = y then .isTrue (by rw [h])
    else .isFalse (fun hh => h (by injection hh))
  | .raw _, .dig _ => .isFalse (fun hh => Chunk.noConfusion hh)
  | .dig _, .raw _ => .isFalse (fun hh => Chunk.noConfusion hh)
  | .dig x, .dig y =>
    match chunkListDecEq x y with
    | .isTrue h => .isTrue (by rw [h])
    | .isFalse h => .isFalse (fun hh => h (by injection hh))

def chunkListDecEq : (a b : List Chunk) → Decidable (a = b)
  | [], [] => .isTrue rfl
  | [], _ :: _ => .isFalse (fun hh => List.noConfusion hh)
  | _ :: _, [] => .isFalse (fun hh => List.noConfusion hh)
  | x :: xs, y :: ys =>
    match chunkDecEq x y, chunkListDecEq xs ys with
    | .isTrue h1, .isTrue h2 => .isTrue (by rw [h1, h2])
    | .isFalse h1, _ => .isFalse (fun hh => h1 (by injection hh))
    | _, .isFalse h2 => .isFalse (fun hh => h2 (by injection hh))

end

instance : DecidableEq Chunk := chunkDecEq

/-- C6.  The tuple/list distinction is erased: a tuple parameter and a list
parameter with the same element sequence take the same `isinstance(param,
(list, tuple))` branch (source lines 50-51) and so contribute identical
update streams — `hash((1,)) == hash([1])` — while element order within a
sequence matters: `hash([1, 2]) != hash([2, 1])` (distinct streams; distinct
digests barring an xxh128 collision). -/
theorem consistent_hash_tuple_list_erased :
    (∀ (tp : Bool) (elems : List Value),
      chunkOf tp (Value.vtuple elems) = chunkOf tp (Value.vlist elems))
    ∧ (∀ elems : List Value,
      consistent_hash [Value.vtuple elems] [] = consistent_hash [Value.vlist elems] [])
    ∧ consistent_hash [Value.vtuple [Value.vint 1]] []
        = consistent_hash [Value.vlist [Value.vint 1]] []
    ∧ consistent_hash [Value.vlist [Value.vint 1, Value.vint 2]] []
        ≠ consistent_hash [Value.vlist [Value.vint 2, Value.vint 1]] [] := by
  refine ⟨fun tp elems => ?_, fun elems => ?_, by decide, by decide⟩
  · simp [chunkOf]
  · simp [consistent_hash, consistent_hash_raw, chunkOf]

/-- C4.  Type-name mixing is disabled by default (`consistent_hash` calls
`consistent_hash_raw` with `type_name_dependence=False`), and every unequal
fixture pair of the repository's test suite
(`tests/test_consistent_hash.py::CONSISTENT_HASH_TEST_CASES`) — pairs
differing in value, in type at a sequence position, or in mapping key set —
produces distinct update streams, hence distinct digests barring an xxh128
collision. -/
theorem consistent_hash_fixture_pairs_distinct :
    (∀ (args : List Value) (kwargs : List (String × Value)),
      consistent_hash args kwargs = consistent_hash_raw args kwargs false true)
    ∧ consistent_hash [Value.vint 1] [] ≠ consistent_hash [Value.vint 2] []
    ∧ consistent_hash [Value.vint (-1)] [] ≠ consistent_hash [Value.vint (-2)] []
    ∧ consistent_hash [Value.vtuple [Value.vint 1]] []
        ≠ consistent_hash [Value.vlist [Value.vint 2]] []
    ∧ consistent_hash [Value.vlist [Value.vint 1, Value.vint 2]] []
        ≠ consistent_hash [Value.vlist [Value.vint 2, Value.vint 1]] []
    ∧ consistent_hash [Value.vdict [("foo", Value.vint 1), ("bar", Value.vint 2)]] []
        ≠ consistent_hash [Value.vdict [("foo", Value.vint 1), ("quux", Value.vint 2)]] []
    ∧ consistent_hash
          [Value.vobj "ConsistentHashObj" 1 (some 123) none "ConsistentHashObj(123)"] []
        ≠ consistent_hash
          [Value.vobj "ConsistentHashObj" 2 (some 1234) none "ConsistentHashObj(1234)"] [] :=
  ⟨fun _ _ => rfl, by decide, by decide, by decide, by decide, by decide, by decide⟩

theorem chunkOf_selfHash (c : String) (hc : c ∉ PRIMITIVE_TYPE_NAMES)
    (i : Nat) (p : Option (List Byte)) (r : String) (m : Nat) :
    consistent_hash [Value.vobj c i (some m) p r] [] = [Chunk.raw (toBytes16LE m)] := by
  simp [consistent_hash, consistent_hash_raw, chunkOf, hc]

/-- C7.  A value exposing the `_consistent_hash` capability (source lines
44-46) contributes the 16-byte little-endian encoding of the 128-bit integer
the capability returns, in place of any structural hash: two distinct
instances (different object identity, pickle form and repr) whose self-hash
is `123` hash identically, and an instance self-hashing to `124` hashes
differently from one self-hashing to `123` (distinct streams; distinct
digests barring an xxh128 collision). -/
theorem consistent_hash_self_hash_capability
    (c₁ c₂ : String) (h₁ : c₁ ∉ PRIMITIVE_TYPE_NAMES) (h₂ : c₂ ∉ PRIMITIVE_TYPE_NAMES)
    (i₁ i₂ : Nat) (p₁ p₂ : Option (List Byte)) (r₁ r₂ : String) (n : Nat) :
    consistent_hash [Value.vobj c₁ i₁ (some n) p₁ r₁] [] = [Chunk.raw (toBytes16LE n)]
    ∧ consistent_hash [Value.vobj c₁ i₁ (some 123) p₁ r₁] []
        = consistent_hash [Value.vobj c₂ i₂ (some 123) p₂ r₂] []
    ∧ consistent_hash [Value.vobj c₁ i₁ (some 124) p₁ r₁] []
        ≠ consistent_hash [Value.vobj c₂ i₂ (some 123) p₂ r₂] [] := by
  refine ⟨chunkOf_selfHash c₁ h₁ i₁ p₁ r₁ n, ?_, ?_⟩
  · rw [chunkOf_selfHash c₁ h₁ i₁ p₁ r₁ 123, chunkOf_selfHash c₂ h₂ i₂ p₂ r₂ 123]
  · rw [chunkOf_selfHash c₁ h₁ i₁ p₁ r₁ 124, chunkOf_selfHash c₂ h₂ i₂ p₂ r₂ 123]
    decide

/-- Witness for C7 at concrete inputs: class name `"ConsistentHashObj"`
(not a primitive type name), two instances with different identities, pickle
forms and reprs. -/
theorem consistent_hash_self_hash_capability_witness :
    "ConsistentHashObj" ∉ PRIMITIVE_TYPE_NAMES
    ∧ (consistent_hash [Value.vobj "ConsistentHashObj" 1 (some 7) none "a"] []
          = [Chunk.raw (toBytes16LE 7)]
        ∧ consistent_hash [Value.vobj "ConsistentHashObj" 1 (some 123) none "a"] []
          = consistent_hash [Value.vobj "ConsistentHashObj" 2 (some 123) (some [1]) "b"] []
        ∧ consistent_hash [Value.vobj "ConsistentHashObj" 1 (some 124) none "a"] []
          ≠ consistent_hash [Value.vobj "ConsistentHashObj" 2 (some 123) (some [1]) "b"] []) :=
  ⟨by decide,
    consistent_hash_self_hash_capability "ConsistentHashObj" "ConsistentHashObj"
      (by decide) (by decide) 1 2 none (some [1]) "a" "b" 7⟩

/-- C9.  The generic branch (source lines 52-60) never raises: with the
embedding total by construction, the theorem exhibits the fallback chain for
a value with no primitive type name, no self-hash capability and no
structural rule — if `pickle.dumps` raises (modelled by `pickled = none`),
the value's `repr` text is encoded instead and a digest is still returned;
if pickling succeeds, its bytes are used; and with `try_pickle=False` the
repr fallback is used directly. -/
theorem consistent_hash_fallback_never_raises
    (c : String) (hc : c ∉ PRIMITIVE_TYPE_NAMES) (i : Nat) (r : String) :
    consistent_hash [Value.vobj c i none none r] [] = [Chunk.raw (encodeStr r)]
    ∧ (∀ bs : List Byte,
        consistent_hash [Value.vobj c i none (some bs) r] [] = [Chunk.raw bs])
    ∧ (∀ pk : Option (List Byte),
        consistent_hash_raw [Value.vobj c i none pk r] [] false false
          = [Chunk.raw (encodeStr r)]) := by
  refine ⟨?_, fun bs => ?_, fun pk => ?_⟩ <;>
    simp [consistent_hash, consistent_hash_raw, chunkOf, hc]

/-- Witness for C9 at concrete inputs: an unpicklable object of class
`"Unpicklable"` still hashes, to its encoded repr. -/
theorem consistent_hash_fallback_never_raises_witness :
    "Unpicklable" ∉ PRIMITIVE_TYPE_NAMES
    ∧ (consistent_hash [Value.vobj "Unpicklable" 3 none none "<Unpicklable>"] []
          = [Chunk.raw (encodeStr "<Unpicklable>")]
        ∧ (∀ bs : List Byte,
            consistent_hash [Value.vobj "Unpicklable" 3 none (some bs) "<Unpicklable>"] []
              = [Chunk.raw bs])
        ∧ (∀ pk : Option (List Byte),
            consistent_hash_raw [Value.vobj "Unpicklable" 3 none pk "<Unpicklable>"] []
                false false
              = [Chunk.raw (encodeStr "<Unpicklable>")])) :=
  ⟨by decide, consistent_hash_fallback_never_raises "Unpicklable" (by decide) 3 "<Unpicklable>"⟩

/-!
Part 2: embedding of `src/replete/flock.py` (`FileLock`).

Modelling conventions:

* A filesystem path is a directory component list plus a final component name
  (a character list); `Path.with_suffix` only rewrites the final component.
* The filesystem is the list of existing files; `Path.touch(exist_ok=True)`
  adds the file if absent.  `mkdir(parents=True, exist_ok=True)` concerns
  directories only and is not modelled.
* OS calls made by `acquire`/`release` are recorded as an `OsAction` trace
  next to the `Except` result, so "no file descriptor is opened and no OS
  lock is requested" on an error path is the trace being empty.  The file
  descriptor returned by `self._file_path.open()` is a parameter of
  `acquire`.  `fcntl.flock(fd, code)` blocks until the OS grants the lock —
  the source never passes `LOCK_NB` — so the successful call is modelled as
  completing.
* `fcntl` constants on Linux: `LOCK_SH = 1`, `LOCK_EX = 2`, `LOCK_NB = 4`,
  `LOCK_UN = 8`.
-/

/-- A filesystem path: parent directories and the final component's name. -/
structure PyPath where
  dir : List String
  name : List Char
deriving DecidableEq

/-- Index of the last `'.'` in a name, if any (Python `str.rfind('.')` with
`-1` mapped to `none`). -/
def rfindDotIdx (cs : List Char) : Option Nat :=
  match cs.reverse.findIdx? (fun c => c == '.') with
  | some j => some (cs.length - 1 - j)
  | none => none

/-- CPython `PurePath.with_suffix` on the final component's name: the current
suffix is `name[i:]` for `i = name.rfind('.')` provided `0 < i < len(name) -
1` (so `".bashrc"` and `"foo."` have no suffix); it is stripped, if present,
and the new suffix is appended. -/
def pyWithSuffix (name : List Char) (suffix : List Char) : List Char :=
  match rfindDotIdx name with
  | some i => if 0 < i ∧ i + 1 < name.length then name.take i ++ suffix else name ++ suffix
  | none => name ++ suffix

/-- The filesystem contents: the list of existing files. -/
abbrev FS := List PyPath

/-- `Path.touch(exist_ok=True)`: create the (empty) file if absent. -/
def touch (fs : FS) (p : PyPath) : FS := if p ∈ fs then fs else p :: fs

/-- `fcntl.LOCK_SH`. -/
def LOCK_SH : Nat := 1

/-- `fcntl.LOCK_EX`. -/
def LOCK_EX : Nat := 2

/-- `fcntl.LOCK_NB` (never used by the source). -/
def LOCK_NB : Nat := 4

/-- `fcntl.LOCK_UN`. -/
def LOCK_UN : Nat := 8

/-- `FileLockType` (source lines 13-15). -/
inductive FileLockType where
  | exclusive
  | shared

/-- `FileLock.LOCK_TYPE_TO_FCNTL_LOCK` (source line 20). -/
def LOCK_TYPE_TO_FCNTL_LOCK : FileLockType → Nat
  | .exclusive => LOCK_EX
  | .shared => LOCK_SH

/-- The state of one `FileLock` object: the derived lock-file path, the open
file descriptor (`self._fd`, `none` when unacquired; a `TextIOWrapper` is
always truthy, so the source's `if not self._fd` is the `None` test), and
the configured `fcntl` code (`self._lock_code`). -/
structure FileLock where
  file_path : PyPath
  fd : Option Nat
  lock_code : Option Nat
deriving DecidableEq

/-- `FileLock.__init__` (source lines 22-28): derive the lock path with
`with_suffix(".lock")`, create parent directories (not modelled) and the
lock file itself (`touch(exist_ok=True)`), and start unconfigured and
unacquired. -/
def FileLock.init (file_path : PyPath) (fs : FS) : FileLock × FS :=
  let lockPath : PyPath := { file_path with name := pyWithSuffix file_path.name ".lock".data }
  ({ file_path := lockPath, fd := none, lock_code := none }, touch fs lockPath)

/-- `FileLock.read_lock` (source lines 34-40): raises if this object already
holds an acquired lock, else a copy configured for a shared lock.  It is a
property: it takes no argument (in particular no non-blocking flag). -/
def read_lock (l : FileLock) : Except String FileLock :=
  if l.fd ≠ none then Except.error "Can't get read lock when lock is already acquired"
  else Except.ok { l with lock_code := some (LOCK_TYPE_TO_FCNTL_LOCK .shared) }

/-- `FileLock.write_lock` (source lines 42-48); the source's error message is
the same (copy-pasted) string as `read_lock`'s. -/
def write_lock (l : FileLock) : Except String FileLock :=
  if l.fd ≠ none then Except.error "Can't get read lock when lock is already acquired"
  else Except.ok { l with lock_code := some (LOCK_TYPE_TO_FCNTL_LOCK .exclusive) }

/-- One OS call performed by the lock. -/
inductive OsAction where
  | openFile (p : PyPath)
  | flock (fd : Nat) (code : Nat)
  | close (fd : Nat)
deriving DecidableEq

/-- `FileLock.acquire` (source lines 50-55): raise on a bare (unconfigured)
lock before any OS call; otherwise open the lock file (the OS assigns
descriptor `n`) and issue a plain blocking `fcntl.flock` with the configured
code. -/
def acquire (l : FileLock) (n : Nat) : Except String FileLock × List OsAction :=
  match l.lock_code with
  | none => (Except.error "Can't acquire bare lock, please use either read_lock or write_lock", [])
  | some code =>
    (Except.ok { l with fd := some n }, [OsAction.openFile l.file_path, OsAction.flock n code])

/-- `FileLock.release` (source lines 57-62): raise if this handle holds no
descriptor (the source interpolates the path into the message); otherwise
unlock, close and clear the descriptor.  No other state is consulted. -/
def release (l : FileLock) : Except String FileLock × List OsAction :=
  match l.fd with
  | none => (Except.error "Lock is not acquired and cannot be released", [])
  | some n => (Except.ok { l with fd := none }, [OsAction.flock n LOCK_UN, OsAction.close n])

/-- C10.  A `FileLock` constructed directly from a path is bare (no lock mode
configured), and `acquire()` on it raises the bare-lock `ValueError` as its
very first action (source lines 51-52), before `self._file_path.open()`: the
result is the error with an empty OS-action trace, so no file descriptor is
opened and no `fcntl.flock` is requested. -/
theorem acquire_bare_lock_raises_before_open (p : PyPath) (fs : FS) (n : Nat) :
    (FileLock.init p fs).1.lock_code = none
    ∧ acquire (FileLock.init p fs).1 n
        = (Except.error "Can't acquire bare lock, please use either read_lock or write_lock",
            ([] : List OsAction)) :=
  ⟨rfl, rfl⟩

/-- Counterexample for C5.  The claim says the lock operates on the sibling
path obtained from `P` by suffixing `.lock` (`P.lock`).  For `P` with final
component `"tmp.txt"`, the source's `with_suffix(".lock")` (source line 23)
yields `"tmp.lock"`, not `"tmp.txt.lock"`. -/
theorem file_lock_path_counterexample :
    (FileLock.init ⟨[], "tmp.txt".data⟩ []).1.file_path.name = "tmp.lock".data
    ∧ "tmp.lock".data ≠ "tmp.txt.lock".data := by
  constructor
  · rfl
  · decide

theorem rfindDotIdx_stem_ext (stem ext : List Char) (hext : '.' ∉ ext) :
    rfindDotIdx (stem ++ '.' :: ext) = some stem.length := by
  have hrev : (stem ++ '.' :: ext).reverse = ext.reverse ++ '.' :: stem.reverse := by
    simp
  have hnone : ext.reverse.findIdx? (fun c => c == '.') = none := by
    rw [List.findIdx?_eq_none_iff]
    intro x hx
    exact beq_eq_false_iff_ne.mpr fun hxeq => hext (hxeq ▸ List.mem_reverse.mp hx)
  have hcons : ('.' :: stem.reverse).findIdx? (fun c => c == '.') = some 0 := by
    rw [List.findIdx?_cons]
    simp
  rw [rfindDotIdx, hrev, List.findIdx?_append, hnone, hcons]
  simp only [Option.none_or, Option.map_some', List.length_reverse,
    List.length_append, List.length_cons, Option.some.injEq]
  omega

theorem rfindDotIdx_no_dot (nm : List Char) (h : '.' ∉ nm) :
    rfindDotIdx nm = none := by
  rw [rfindDotIdx]
  have hnone : nm.reverse.findIdx? (fun c => c == '.') = none := by
    rw [List.findIdx?_eq_none_iff]
    intro x hx
    exact beq_eq_false_iff_ne.mpr fun hxeq => h (hxeq ▸ List.mem_reverse.mp hx)
  rw [hnone]

/-- C5 (amended).  Constructing a `FileLock` on target path `P` operates on
the path obtained from `P` by replacing the final extension of its last
component with `.lock` — `stem.ext ↦ stem.lock` — and only appends `.lock`
when the name has no extension; the constructor eagerly and idempotently
creates that lock file (constructing twice leaves the filesystem as after
constructing once, with exactly one lock file). -/
theorem file_lock_path_and_eager_creation
    (dir : List String) (stem ext : List Char) (fs : FS)
    (hstem : stem ≠ []) (hext : ext ≠ []) (hdot : '.' ∉ ext) :
    (FileLock.init ⟨dir, stem ++ '.' :: ext⟩ fs).1.file_path
        = ⟨dir, stem ++ ".lock".data⟩
    ∧ (∀ nm : List Char, '.' ∉ nm →
        (FileLock.init ⟨dir, nm⟩ fs).1.file_path = ⟨dir, nm ++ ".lock".data⟩)
    ∧ (FileLock.init ⟨dir, stem ++ '.' :: ext⟩
          (FileLock.init ⟨dir, stem ++ '.' :: ext⟩ fs).2).2
        = (FileLock.init ⟨dir, stem ++ '.' :: ext⟩ fs).2
    ∧ ((⟨dir, stem ++ ".lock".data⟩ : PyPath) ∉ fs →
        (FileLock.init ⟨dir, stem ++ '.' :: ext⟩ fs).2.count ⟨dir, stem ++ ".lock".data⟩ = 1) := by
  have hcond : 0 < stem.length ∧ stem.length + 1 < (stem ++ '.' :: ext).length := by
    refine ⟨List.length_pos.mpr hstem, ?_⟩
    have := List.length_pos.mpr hext
    simp only [List.length_append, List.length_cons]
    omega
  have hname : pyWithSuffix (stem ++ '.' :: ext) ".lock".data = stem ++ ".lock".data := by
    simp only [pyWithSuffix, rfindDotIdx_stem_ext stem ext hdot]
    rw [if_pos hcond, List.take_left]
  refine ⟨?_, ?_, ?_, ?_⟩
  · simp only [FileLock.init, hname]
  · intro nm hnm
    simp only [FileLock.init, pyWithSuffix, rfindDotIdx_no_dot nm hnm]
  · simp only [FileLock.init, hname, touch]
    by_cases hmem : (⟨dir, stem ++ ".lock".data⟩ : PyPath) ∈ fs
    · simp [hmem]
    · simp [hmem]
  · intro hmem
    simp only [FileLock.init, hname, touch, if_neg hmem]
    rw [List.count_cons_self, List.count_eq_zero_of_not_mem hmem]

/-- Witness for C5 (amended) at concrete inputs: target name `"tmp.txt"`,
empty filesystem. -/
theorem file_lock_path_and_eager_creation_witness :
    "tmp".data ≠ ([] : List Char) ∧ "txt".data ≠ ([] : List Char) ∧ '.' ∉ "txt".data
    ∧ ((FileLock.init ⟨[], "tmp".data ++ '.' :: "txt".data⟩ []).1.file_path
          = ⟨[], "tmp".data ++ ".lock".data⟩
        ∧ (∀ nm : List Char, '.' ∉ nm →
            (FileLock.init ⟨[], nm⟩ []).1.file_path = ⟨[], nm ++ ".lock".data⟩)
        ∧ (FileLock.init ⟨[], "tmp".data ++ '.' :: "txt".data⟩
              (FileLock.init ⟨[], "tmp".data ++ '.' :: "txt".data⟩ []).2).2
            = (FileLock.init ⟨[], "tmp".data ++ '.' :: "txt".data⟩ []).2
        ∧ ((⟨[], "tmp".data ++ ".lock".data⟩ : PyPath) ∉ ([] : FS) →
            (FileLock.init ⟨[], "tmp".data ++ '.' :: "txt".data⟩ []).2.count
                ⟨[], "tmp".data ++ ".lock".data⟩ = 1)) :=
  ⟨by decide, by decide, by decide,
    file_lock_path_and_eager_creation [] "tmp".data "txt".data []
      (by decide) (by decide) (by decide)⟩

/-- C3 (code evaluation).  The source's `release` (lines 57-62) consults only
this handle's own descriptor: on any handle with an open descriptor —
regardless of any other handle of the same reentrant chain still being
acquired — it unlocks, closes and returns successfully.  No "unreleased
dependent lock" error and no dependency bookkeeping exist in the code (the
class is marked `# TODO: Make this re-entrant`), so releasing a write handle
while its nested read handle is still held does not raise, contradicting the
claim and the repository's own test
`test_write_read_reentrant_wrong_release_order_error` (which expects
`ValueError("unreleased read lock")`). -/
theorem release_ignores_dependent_handles (l : FileLock) (n : Nat) (h : l.fd = some n) :
    release l
      = (Except.ok { l with fd := none },
          [OsAction.flock n LOCK_UN, OsAction.close n]) := by
  simp [release, h]

/-- Witness for C3's code evaluation: the acquired write handle of the
claim's scenario (descriptor 3; the sibling read handle of the same chain
holds descriptor 4) releases without any error. -/
theorem release_ignores_dependent_handles_witness :
    (⟨⟨[], "tmp.lock".data⟩, some 3, some LOCK_EX⟩ : FileLock).fd = some 3
    ∧ release (⟨⟨[], "tmp.lock".data⟩, some 3, some LOCK_EX⟩ : FileLock)
        = (Except.ok (⟨⟨[], "tmp.lock".data⟩, none, some LOCK_EX⟩ : FileLock),
            [OsAction.flock 3 LOCK_UN, OsAction.close 3]) :=
  ⟨rfl, release_ignores_dependent_handles _ 3 rfl⟩

/-- C8 (code evaluation).  The source has no non-blocking mode: `read_lock` /
`write_lock` are argument-less properties whose successful result is
configured with plain `LOCK_SH` / `LOCK_EX` (so the test suite's
`read_lock(non_blocking=True)` call is a `TypeError` on this code), and
`acquire` on any configured handle unconditionally opens the file and issues
a blocking `fcntl.flock` whose code never carries the `LOCK_NB` bit — there
is no "would block" outcome in the code at all. -/
theorem acquire_has_no_would_block_path (l : FileLock) (n c : Nat)
    (hc : l.lock_code = some c) :
    acquire l n
        = (Except.ok { l with fd := some n },
            [OsAction.openFile l.file_path, OsAction.flock n c])
    ∧ (∀ l', read_lock l = Except.ok l' → l'.lock_code = some LOCK_SH)
    ∧ (∀ l', write_lock l = Except.ok l' → l'.lock_code = some LOCK_EX)
    ∧ Nat.testBit LOCK_SH 2 = false ∧ Nat.testBit LOCK_EX 2 = false
    ∧ Nat.testBit LOCK_NB 2 = true := by
  refine ⟨by simp [acquire, hc], ?_, ?_, by decide, by decide, by decide⟩
  · intro l' h'
    by_cases hfd : l.fd = none
    · simp [read_lock, hfd] at h'
      cases h'
      rfl
    · simp [read_lock, hfd] at h'
  · intro l' h'
    by_cases hfd : l.fd = none
    · simp [write_lock, hfd] at h'
      cases h'
      rfl
    · simp [write_lock, hfd] at h'

/-- Witness for C8's code evaluation: a shared-mode handle on `tmp.lock`
acquires by opening the file and issuing one blocking `flock(5, LOCK_SH)`. -/
theorem acquire_has_no_would_block_path_witness :
    (⟨⟨[], "tmp.lock".data⟩, none, some LOCK_SH⟩ : FileLock).lock_code = some LOCK_SH
    ∧ (acquire (⟨⟨[], "tmp.lock".data⟩, none, some LOCK_SH⟩ : FileLock) 5
          = (Except.ok (⟨⟨[], "tmp.lock".data⟩, some 5, some LOCK_SH⟩ : FileLock),
              [OsAction.openFile ⟨[], "tmp.lock".data⟩, OsAction.flock 5 LOCK_SH])
        ∧ (∀ l', read_lock (⟨⟨[], "tmp.lock".data⟩, none, some LOCK_SH⟩ : FileLock)
              = Except.ok l' → l'.lock_code = some LOCK_SH)
        ∧ (∀ l', write_lock (⟨⟨[], "tmp.lock".data⟩, none, some LOCK_SH⟩ : FileLock)
              = Except.ok l' → l'.lock_code = some LOCK_EX)
        ∧ Nat.testBit LOCK_SH 2 = false ∧ Nat.testBit LOCK_EX 2 = false
        ∧ Nat.testBit LOCK_NB 2 = true) :=
  ⟨rfl, acquire_has_no_would_block_path _ 5 LOCK_SH rfl⟩
